import Mathlib

/-!
Shallow embedding of the access-gating pipeline of
simple-file-hosting: src/check-download.js (download gate) and
src/hosting.js (bounded geolocation cache).  Machine strings are Lean
Strings, JS header lookups are Option String (undefined = none), and
JS truthiness of a string is modelled by truthy below.
-/

namespace SimpleFileHosting

/-- JS truthiness of an optional string value: undefined and the empty
string are falsy, every other string is truthy. -/
def truthy : Option String → Bool
  | none => false
  | some s => s != ""

/-- Characters of a string lowercased; models both toLowerCase and the
i regex flag (all patterns involved are ASCII). -/
def lowerChars (s : String) : List Char :=
  s.toList.map Char.toLower

/-- String lowercased, models JS toLowerCase. -/
def toLowerStr (s : String) : String :=
  String.mk (lowerChars s)

/-- Pattern pat occurs contiguously inside cs. -/
def isSubChars (pat : List Char) : List Char → Bool
  | [] => pat.isEmpty
  | c :: rest => pat.isPrefixOf (c :: rest) || isSubChars pat rest

/-- Model of the JS String.includes substring test. -/
def containsSub (s pat : String) : Bool :=
  isSubChars pat.toList s.toList

/-- Case-insensitive substring test: models testing a /pat/i regex whose
body is a plain literal against s. -/
def containsSubCI (s pat : String) : Bool :=
  isSubChars (lowerChars pat) (lowerChars s)

/-- Characters after the last slash of a path (Node basename step). -/
def afterLastSlash (cs : List Char) : List Char :=
  cs.foldl (fun acc c => if c = '/' then [] else acc ++ [c]) []

/-- Extension of a basename: the suffix from the last dot when that dot
is not the first character, else empty.  Agrees with Node path.extname
except on basenames made only of dots, none of which carries an
extension in the download-extension set. -/
def extOf (cs : List Char) : List Char :=
  let rev := cs.reverse
  if rev.any (fun c => c = '.') then
    let afterDot := rev.takeWhile (fun c => c != '.')
    if cs.length - 1 - afterDot.length = 0 then []
    else '.' :: afterDot.reverse
  else []

/-- Model of path.extname from src/check-download.js line 22. -/
def extname (p : String) : String :=
  String.mk (extOf (afterLastSlash p.toList))

/-- One HTTP request as the gate reads it.  Absent headers are none.
Express returns the same header for the Referrer and Referer names, so
the JS expression req.get(Referrer) or-else req.get(Referer) collapses
to the single referer field. -/
structure Request where
  path : String
  accept : Option String
  contentDisposition : Option String
  acceptLanguage : Option String
  acceptEncoding : Option String
  secFetchDest : Option String
  secFetchMode : Option String
  secFetchSite : Option String
  secChUa : Option String
  connection : Option String
  upgradeInsecureRequests : Option String
  cacheControl : Option String
  userAgent : Option String
  referer : Option String
  cookieJsEnabled : Option (Option String)
deriving DecidableEq

/-- The cookie check of line 162: req.cookies may be absent (none) and
jsEnabled may be absent inside it (some none). -/
def hasJsCookie (req : Request) : Bool :=
  match req.cookieJsEnabled with
  | none => false
  | some v => truthy v

/-- The downloadCheck configuration block of config.json. -/
structure DownloadCheck where
  enableReferrer : Bool
  enableUserAgent : Bool
  enableBrowserFeature : Bool
  enableJsCheck : Bool
  allowedRefDomains : Option (List String)
deriving DecidableEq

/-- Whole configuration as the gate reads it; downloadCheck may be
absent, making every optional-chained flag read falsy. -/
structure Config where
  downloadCheck : Option DownloadCheck
deriving DecidableEq

/-- Optional-chained read config.downloadCheck?.enableReferrer. -/
def enabledReferrer (cfg : Config) : Bool :=
  match cfg.downloadCheck with
  | some dc => dc.enableReferrer
  | none => false

/-- Optional-chained read config.downloadCheck?.enableUserAgent. -/
def enabledUserAgent (cfg : Config) : Bool :=
  match cfg.downloadCheck with
  | some dc => dc.enableUserAgent
  | none => false

/-- Optional-chained read config.downloadCheck?.enableBrowserFeature. -/
def enabledBrowserFeature (cfg : Config) : Bool :=
  match cfg.downloadCheck with
  | some dc => dc.enableBrowserFeature
  | none => false

/-- Optional-chained read config.downloadCheck?.enableJsCheck. -/
def enabledJsCheck (cfg : Config) : Bool :=
  match cfg.downloadCheck with
  | some dc => dc.enableJsCheck
  | none => false

/-- The fixed download-extension set of src/check-download.js line 24. -/
def fileExts : List String :=
  [".zip", ".rar", ".7z", ".tar", ".gz", ".exe", ".pdf", ".doc", ".docx",
   ".xls", ".xlsx", ".ppt", ".pptx", ".jpg", ".jpeg", ".png", ".gif",
   ".mp4", ".mp3", ".apk", ".iso", ".txt"]

/-- isFileDownload of src/check-download.js lines 20 to 36. -/
def isFileDownload (req : Request) : Bool :=
  if fileExts.contains (toLowerStr (extname req.path)) then true
  else if containsSub (req.accept.getD "") "application/octet-stream"
       || containsSub (req.accept.getD "") "attachment" then true
  else containsSub (req.contentDisposition.getD "") "attachment"

/-- Header-feature score of checkModernBrowserFeatures, lines 43 to 75:
one point per modern-browser header signal. -/
def browserFeatureScore (req : Request) : Nat :=
  (if truthy req.accept && containsSub (req.accept.getD "") "text/html" then 1 else 0)
  + (if truthy req.accept && containsSub (req.accept.getD "") "image/webp" then 1 else 0)
  + (if truthy req.acceptLanguage then 1 else 0)
  + (if truthy req.acceptEncoding
        && containsSub (req.acceptEncoding.getD "") "gzip"
        && containsSub (req.acceptEncoding.getD "") "deflate" then 1 else 0)
  + (if truthy req.secFetchDest then 1 else 0)
  + (if truthy req.secFetchMode then 1 else 0)
  + (if truthy req.secFetchSite then 1 else 0)
  + (if truthy req.secChUa then 1 else 0)
  + (if req.connection = some "keep-alive" then 1 else 0)
  + (if req.upgradeInsecureRequests = some "1" then 1 else 0)
  + (if truthy req.cacheControl then 1 else 0)

/-- The minScore constant of line 46. -/
def minScore : Nat := 5

/-- checkModernBrowserFeatures of lines 43 to 76. -/
def checkModernBrowserFeatures (req : Request) : Bool :=
  decide (minScore ≤ browserFeatureScore req)

/-- The blockedUserAgents pattern list of lines 2 to 16; each regex body
is a plain literal tested case-insensitively. -/
def blockedUserAgents : List String :=
  ["wget", "curl", "IDM", "Downloader", "libwww-perl", "python",
   "node-fetch", "axios", "got", "superagent", "bot", "crawler", "spider"]

/-- The modern-browser tokens of lines 92 to 98; each regex is
token, slash, digit run, case-insensitive. -/
def modernBrowserTokens : List String :=
  ["Chrome", "Firefox", "Safari", "Edg", "OPR"]

/-- parseInt of a run of decimal digit characters. -/
def natOfDigits (ds : List Char) : Nat :=
  ds.foldl (fun n c => n * 10 + (c.toNat - 48)) 0

/-- First regex match of tok-then-digit-run in cs, as a number: the scan
tries each start position in order, exactly as the regex engine does,
and at the first position where tok is followed by at least one digit
it parses the maximal digit run. -/
def firstVersionFrom (tok : List Char) (cs : List Char) : Option Nat :=
  match cs with
  | [] => none
  | c :: rest =>
    if tok.isPrefixOf (c :: rest) then
      match (List.drop tok.length (c :: rest)).head? with
      | some d =>
        if d.isDigit then
          some (natOfDigits ((List.drop tok.length (c :: rest)).takeWhile Char.isDigit))
        else firstVersionFrom tok rest
      | none => firstVersionFrom tok rest
    else firstVersionFrom tok rest

/-- Version captured by the /tok-slash-digits/i regex applied to ua
(first match, as String.match returns). -/
def matchBrowserVersion (ua : String) (tok : String) : Option Nat :=
  firstVersionFrom (lowerChars (tok ++ "/")) (lowerChars ua)

/-- isValidBrowser of src/check-download.js lines 83 to 106. -/
def isValidBrowser (userAgent : Option String) : Bool :=
  match userAgent with
  | none => false
  | some ua =>
    if ua = "" then false
    else if blockedUserAgents.any (fun pat => containsSubCI ua pat) then false
    else modernBrowserTokens.any (fun tok =>
      match matchBrowserVersion ua tok with
      | some v => decide (70 ≤ v)
      | none => false)

/-- Outcome of one run of the gate middleware: next() is allow, a 403
send is deny with the reason text baked into the page, and the
cookie-setting verification page is challenge. -/
inductive Decision where
  | allow : Decision
  | deny (reason : String) : Decision
  | challenge : Decision
deriving DecidableEq

/-- Reason text of the User-Agent rejection, line 142. -/
def uaDenyReason : String := "User-Agent 非现代浏览器或疑似下载工具"

/-- Reason text of the feature-score rejection, line 149. -/
def featureDenyReason : String := "请求头缺少现代浏览器特性"

/-- Reason text of the missing-referrer rejection, line 156. -/
def referrerDenyReason : String := "无有效来源页面 Referrer"

/-- The referrer allowlist bypass condition of lines 131 to 136:
enableReferrer is truthy, the referrer is truthy, allowedRefDomains is
an array, and some configured domain is a substring of the referrer. -/
def referrerBypass (cfg : Config) (req : Request) : Bool :=
  match cfg.downloadCheck with
  | none => false
  | some dc =>
    dc.enableReferrer && truthy req.referer &&
      (match dc.allowedRefDomains with
       | some domains => domains.any (fun d => containsSub (req.referer.getD "") d)
       | none => false)

/-- validateDownloadRequest of src/check-download.js lines 111 to 187. -/
def validateDownloadRequest (cfg : Config) (req : Request) : Decision :=
  if !isFileDownload req then Decision.allow
  else if referrerBypass cfg req then Decision.allow
  else if enabledUserAgent cfg && !isValidBrowser req.userAgent then
    Decision.deny uaDenyReason
  else if enabledBrowserFeature cfg && !checkModernBrowserFeatures req then
    Decision.deny featureDenyReason
  else if enabledReferrer cfg && !truthy req.referer
          && !containsSub req.path "index.html" then
    Decision.deny referrerDenyReason
  else if enabledJsCheck cfg && !hasJsCookie req then
    Decision.challenge
  else Decision.allow

/-!
Geo cache of src/hosting.js lines 32 to 73.  The two JS Maps are
modelled as insertion-ordered association lists, matching JS Map
iteration order: set of a present key updates it in place, set of a
fresh key appends, delete removes, iteration is list order.
-/

/-- JS Map.has. -/
def mapHas (m : List (String × α)) (k : String) : Bool :=
  m.any (fun p => p.1 == k)

/-- JS Map.get (undefined when absent). -/
def mapGet (m : List (String × α)) (k : String) : Option α :=
  (m.find? (fun p => p.1 == k)).map Prod.snd

/-- JS Map.set: in-place update when the key is present (iteration
position preserved), append when fresh. -/
def mapSet (m : List (String × α)) (k : String) (v : α) : List (String × α) :=
  if mapHas m k then m.map (fun p => if p.1 == k then (k, v) else p)
  else m ++ [(k, v)]

/-- JS Map.delete. -/
def mapDelete (m : List (String × α)) (k : String) : List (String × α) :=
  m.filter (fun p => p.1 != k)

/-- Keys of a map in iteration order. -/
def mapKeys (m : List (String × α)) : List String :=
  m.map Prod.fst

/-- MAX_CACHE_SIZE of src/hosting.js line 32. -/
def MAX_CACHE_SIZE : Nat := 100

/-- Parsed body of a successful geolocation response: the destructured
country, city and region fields, each possibly absent in the JSON. -/
structure IpInfo where
  country : Option String
  city : Option String
  region : Option String
deriving DecidableEq

/-- Outcome of the external axios.get lookup: a parsed body or any
failure (network error, non-2xx, malformed body). -/
inductive LookupRes where
  | success (info : IpInfo) : LookupRes
  | failure : LookupRes
deriving DecidableEq

/-- The two process-wide maps: ipInfoCache (value null after a failed
lookup, modelled none) and ipAccessTimes. -/
structure GeoState where
  ipInfoCache : List (String × Option IpInfo)
  ipAccessTimes : List (String × Nat)
deriving DecidableEq

/-- State at process start: both maps empty. -/
def emptyGeoState : GeoState := ⟨[], []⟩

/-- Loop body of the oldest-entry scan: the running best is none while
no entry was seen (oldestTime Infinity, oldestIp null) and strict
less-than keeps the first minimum. -/
def oldestStep (best : Option (String × Nat)) (p : String × Nat) : Option (String × Nat) :=
  match best with
  | none => some p
  | some q => if p.2 < q.2 then some p else some q

/-- The oldest-entry scan of src/hosting.js lines 45 to 53. -/
def scanOldest (times : List (String × Nat)) : Option (String × Nat) :=
  times.foldl oldestStep none

/-- Result of one getIPInfo call: the returned value (null modelled
none), the maps afterwards, and whether the external call ran. -/
structure GeoResult where
  value : Option IpInfo
  state : GeoState
  externalCall : Bool
deriving DecidableEq

/-- The capacity-triggered eviction block of src/hosting.js lines 43 to
59: when the cache is at capacity, scan for the oldest access time and
remove that address from both maps.  The guard of line 55 tests the
truthiness of oldestIp, so a falsy oldestIp (null, or the empty-string
key) skips the eviction. -/
def evictIfFull (st : GeoState) : GeoState :=
  if MAX_CACHE_SIZE ≤ st.ipInfoCache.length then
    match scanOldest st.ipAccessTimes with
    | some (oldestIp, _) =>
      if oldestIp != "" then
        { ipInfoCache := mapDelete st.ipInfoCache oldestIp
          ipAccessTimes := mapDelete st.ipAccessTimes oldestIp }
      else st
    | none => st
  else st

/-- getIPInfo of src/hosting.js lines 36 to 73.  now is Date.now() and
res stands for the outcome the external lookup would produce. -/
def getIPInfo (st : GeoState) (ip : String) (now : Nat) (res : LookupRes) : GeoResult :=
  if mapHas st.ipInfoCache ip then
    { value := (mapGet st.ipInfoCache ip).join
      state := { st with ipAccessTimes := mapSet st.ipAccessTimes ip now }
      externalCall := false }
  else
    let st1 := evictIfFull st
    match res with
    | LookupRes.success info =>
      { value := some info
        state :=
          { ipInfoCache := mapSet st1.ipInfoCache ip (some info)
            ipAccessTimes := mapSet st1.ipAccessTimes ip now }
        externalCall := true }
    | LookupRes.failure =>
      { value := none
        state :=
          { ipInfoCache := mapSet st1.ipInfoCache ip none
            ipAccessTimes := mapSet st1.ipAccessTimes ip now }
        externalCall := true }

/-- One lookup operation of a run: the address, the clock value and what
the external provider would answer. -/
structure GeoOp where
  ip : String
  now : Nat
  res : LookupRes
deriving DecidableEq

/-- Fold a sequence of lookups over the cache state. -/
def runGeo (st : GeoState) (ops : List GeoOp) : GeoState :=
  ops.foldl (fun s o => (getIPInfo s o.ip o.now o.res).state) st

/-!  Concrete fixtures used by the witness theorems. -/

/-- A request with every optional header absent. -/
def reqBase : Request :=
  { path := "/files/readme"
    accept := none
    contentDisposition := none
    acceptLanguage := none
    acceptEncoding := none
    secFetchDest := none
    secFetchMode := none
    secFetchSite := none
    secChUa := none
    connection := none
    upgradeInsecureRequests := none
    cacheControl := none
    userAgent := none
    referer := none
    cookieJsEnabled := none }

/-- A configuration with all four checks enabled and one allowlisted
referrer domain. -/
def cfgAllOn : Config :=
  ⟨some ⟨true, true, true, true, some ["example.com"]⟩⟩

/-- A genuine desktop-browser user-agent string. -/
def chromeUA : String :=
  "Mozilla/5.0 (X11) AppleWebKit/537.36 Chrome/91.0.4472.114 Safari/537.36"

/-- Occurrence anywhere in cs of tok followed by a digit run of value at
least 70.  This is the containment reading of the claim wording, kept as
a refinement target next to the first-match semantics of the source. -/
def anyVersionGE70From (tok : List Char) : List Char → Bool
  | [] => false
  | c :: rest =>
    (tok.isPrefixOf (c :: rest) &&
      (match (List.drop tok.length (c :: rest)).head? with
       | some d =>
         d.isDigit &&
           decide (70 ≤ natOfDigits ((List.drop tok.length (c :: rest)).takeWhile Char.isDigit))
       | none => false))
    || anyVersionGE70From tok rest

/-- The claim wording for the passing side of the user-agent step: the
user agent CONTAINS a major-browser token with an embedded version
number of at least 70 (case-insensitive, any occurrence). -/
def containsModernTokenGE70 (ua : String) : Bool :=
  modernBrowserTokens.any (fun tok => anyVersionGE70From (lowerChars (tok ++ "/")) (lowerChars ua))

/-- The retried request after the challenge page ran: identical except
that the page stored the jsEnabled=true cookie. -/
def setJsCookie (req : Request) : Request :=
  { req with cookieJsEnabled := some (some "true") }

/-- Invariant of the geo cache state: the two maps share one
duplicate-free key list that avoids the empty-string address and is
within the capacity bound. -/
def geoInv (st : GeoState) : Prop :=
  mapKeys st.ipInfoCache = mapKeys st.ipAccessTimes ∧
  (mapKeys st.ipInfoCache).Nodup ∧
  "" ∉ mapKeys st.ipInfoCache ∧
  st.ipInfoCache.length ≤ MAX_CACHE_SIZE

/-- Distinct one-character address used by the overflow scenario. -/
def addrN (n : Nat) : String := String.mk [Char.ofNat (65 + n)]

/-- Lookup sequence that overflows the cache: the empty-string address
first, then 99 distinct addresses, then one more at capacity. -/
def c8BadOps : List GeoOp :=
  { ip := "", now := 0, res := LookupRes.failure }
    :: ((List.range 99).map (fun n => { ip := addrN n, now := n + 1, res := LookupRes.failure }))
    ++ [{ ip := addrN 99, now := 100, res := LookupRes.failure }]

/-- A configuration seen to hold a given downloadCheck block is that
structure literally (one-field structure eta). -/
lemma config_eq (cfg : Config) (odc : Option DownloadCheck)
    (h : cfg.downloadCheck = odc) : cfg = ⟨odc⟩ := by
  cases cfg
  exact congrArg Config.mk h

/-- Claim C1: a request whose path extension is outside the
download-extension set and whose Accept and Content-Disposition headers
carry no attachment indicator is allowed immediately, whatever the
configuration and the remaining headers. -/
theorem c1_non_download_always_allowed (cfg : Config) (req : Request)
    (h1 : fileExts.contains (toLowerStr (extname req.path)) = false)
    (h2 : containsSub (req.accept.getD "") "application/octet-stream" = false)
    (h3 : containsSub (req.accept.getD "") "attachment" = false)
    (h4 : containsSub (req.contentDisposition.getD "") "attachment" = false) :
    validateDownloadRequest cfg req = Decision.allow := by
  have hd : isFileDownload req = false := by
    unfold isFileDownload
    rw [h1, h2, h3, h4]
    simp
  unfold validateDownloadRequest
  simp [hd]

/-- Witness for C1: a curl request for an extensionless path passes the
fully-enabled gate untouched. -/
theorem c1_witness :
    validateDownloadRequest cfgAllOn { reqBase with userAgent := some "curl/7.68.0" }
      = Decision.allow :=
  c1_non_download_always_allowed cfgAllOn _ (by decide) (by decide) (by decide) (by decide)

/-- Claim C2: with enableReferrer set and a configured allowlist, a
download request whose referrer contains an allowlisted domain substring
is allowed at once, before the user-agent and feature checks run. -/
theorem c2_referrer_allowlist_bypass (cfg : Config) (dc : DownloadCheck)
    (domains : List String) (d : String) (req : Request)
    (hdc : cfg.downloadCheck = some dc) (hon : dc.enableReferrer = true)
    (hdom : dc.allowedRefDomains = some domains) (hmem : d ∈ domains)
    (href : truthy req.referer = true)
    (hin : containsSub (req.referer.getD "") d = true)
    (hdl : isFileDownload req = true) :
    validateDownloadRequest cfg req = Decision.allow := by
  rcases config_eq cfg _ hdc with rfl
  have hb : referrerBypass ⟨some dc⟩ req = true := by
    simp only [referrerBypass, hon, hdom, href, Bool.true_and]
    rw [List.any_eq_true]
    exact ⟨d, hmem, hin⟩
  unfold validateDownloadRequest
  simp [hdl, hb]

/-- Witness for C2: a zip download sent by curl with an allowlisted
referrer is allowed even though the user-agent check would deny it. -/
theorem c2_witness :
    validateDownloadRequest cfgAllOn
      { reqBase with
          path := "/files/a.zip"
          userAgent := some "curl/7.68.0"
          referer := some "https://example.com/page" }
      = Decision.allow :=
  c2_referrer_allowlist_bypass cfgAllOn ⟨true, true, true, true, some ["example.com"]⟩
    ["example.com"] "example.com" _ (by decide) (by decide) (by decide) (by decide)
    (by decide) (by decide) (by decide)

/-- A user agent matching a blocked pattern fails isValidBrowser. -/
lemma isValidBrowser_false_of_blocked (ua : String)
    (h : blockedUserAgents.any (fun pat => containsSubCI ua pat) = true) :
    isValidBrowser (some ua) = false := by
  unfold isValidBrowser
  by_cases he : ua = ""
  · simp [he]
  · simp [he, h]

/-- Counterexample to C3 as stated: the user agent string
Chrome-slash-5-space-Chrome-slash-80 matches no blocked pattern and
contains the Chrome token with embedded version 80, yet the source's
regex takes the FIRST Chrome occurrence, parses version 5, and rejects
the browser. -/
theorem c3_counterexample :
    containsModernTokenGE70 "Chrome/5 Chrome/80" = true ∧
    blockedUserAgents.all (fun pat => !containsSubCI "Chrome/5 Chrome/80" pat) = true ∧
    isValidBrowser (some "Chrome/5 Chrome/80") = false := by decide

/-- Claim C3 (amended): with enableUserAgent on and the allowlist bypass
not taken, a download request with an absent or blocked-pattern user
agent is denied with the user-agent reason; and a nonempty user agent
matching no blocked pattern whose FIRST token-slash-digits occurrence
for some major-browser token parses to a version of at least 70 passes
the user-agent step. -/
theorem c3_user_agent_classification :
    (∀ (cfg : Config) (dc : DownloadCheck) (req : Request),
        cfg.downloadCheck = some dc → dc.enableUserAgent = true →
        isFileDownload req = true → referrerBypass cfg req = false →
        (req.userAgent = none ∨
          ∃ ua, req.userAgent = some ua ∧
            blockedUserAgents.any (fun pat => containsSubCI ua pat) = true) →
        validateDownloadRequest cfg req = Decision.deny uaDenyReason) ∧
    (∀ ua : String, ua ≠ "" →
        blockedUserAgents.any (fun pat => containsSubCI ua pat) = false →
        (∃ tok ∈ modernBrowserTokens, ∃ v, matchBrowserVersion ua tok = some v ∧ 70 ≤ v) →
        isValidBrowser (some ua) = true) := by
  constructor
  · intro cfg dc req hdc hon hdl hbyp hua
    rcases config_eq cfg _ hdc with rfl
    have hvb : isValidBrowser req.userAgent = false := by
      rcases hua with h | ⟨ua, hua, hblk⟩
      · rw [h]; rfl
      · rw [hua]; exact isValidBrowser_false_of_blocked ua hblk
    have hen : enabledUserAgent ⟨some dc⟩ = true := hon
    unfold validateDownloadRequest
    simp [hdl, hbyp, hen, hvb]
  · intro ua hne hblk ⟨tok, htok, v, hm, hv⟩
    unfold isValidBrowser
    simp only [hne, if_false, hblk, Bool.false_eq_true]
    rw [List.any_eq_true]
    exact ⟨tok, htok, by rw [hm]; simpa using hv⟩

/-- A string that contains a pattern the empty string does not contain
is truthy. -/
lemma truthy_of_containsSub (o : Option String) (pat : String)
    (hpat : containsSub "" pat = false)
    (h : containsSub (o.getD "") pat = true) : truthy o = true := by
  cases o with
  | none =>
    simp only [Option.getD_none] at h
    rw [hpat] at h
    exact Bool.noConfusion h
  | some s =>
    by_cases hs : s = ""
    · subst hs
      simp only [Option.getD_some] at h
      rw [hpat] at h
      exact Bool.noConfusion h
    · simp [truthy, hs]

/-- Claim C4: with the feature check enabled and no earlier step
deciding, a request whose only scored header is a star-slash-star
Accept scores 0 and is denied with the feature reason; a request whose
Accept carries both text-html and image-webp, with Accept-Language
present, Accept-Encoding carrying gzip and deflate, and Cache-Control
present, scores at least the threshold 5 and passes the feature step. -/
theorem c4_feature_scoring :
    (∀ (cfg : Config) (dc : DownloadCheck) (req : Request),
        cfg.downloadCheck = some dc → dc.enableBrowserFeature = true →
        isFileDownload req = true → referrerBypass cfg req = false →
        (dc.enableUserAgent = false ∨ isValidBrowser req.userAgent = true) →
        req.accept = some "*/*" →
        req.acceptLanguage = none → req.acceptEncoding = none →
        req.secFetchDest = none → req.secFetchMode = none →
        req.secFetchSite = none → req.secChUa = none →
        req.connection = none → req.upgradeInsecureRequests = none →
        req.cacheControl = none →
        browserFeatureScore req = 0 ∧
        validateDownloadRequest cfg req = Decision.deny featureDenyReason) ∧
    (∀ req : Request,
        containsSub (req.accept.getD "") "text/html" = true →
        containsSub (req.accept.getD "") "image/webp" = true →
        truthy req.acceptLanguage = true →
        containsSub (req.acceptEncoding.getD "") "gzip" = true →
        containsSub (req.acceptEncoding.getD "") "deflate" = true →
        truthy req.cacheControl = true →
        5 ≤ browserFeatureScore req ∧ checkModernBrowserFeatures req = true) := by
  constructor
  · intro cfg dc req hdc hbf hdl hbyp hua hacc hlang henc hd1 hd2 hd3 hd4 hconn huir hcc
    rcases config_eq cfg _ hdc with rfl
    have hs : browserFeatureScore req = 0 := by
      unfold browserFeatureScore
      rw [hacc, hlang, henc, hd1, hd2, hd3, hd4, hconn, huir, hcc]
      decide
    have hfeat : checkModernBrowserFeatures req = false := by
      unfold checkModernBrowserFeatures
      rw [hs]
      decide
    have hef : enabledBrowserFeature ⟨some dc⟩ = true := hbf
    have hup : (enabledUserAgent ⟨some dc⟩ && !isValidBrowser req.userAgent) = false := by
      rcases hua with h | h
      · have : enabledUserAgent ⟨some dc⟩ = false := h
        rw [this]; rfl
      · rw [h]; simp
    refine ⟨hs, ?_⟩
    unfold validateDownloadRequest
    simp [hdl, hbyp, hup, hef, hfeat]
  · intro req h1 h2 h3 h4 h5 h6
    have ha : truthy req.accept = true := truthy_of_containsSub _ _ (by decide) h1
    have he : truthy req.acceptEncoding = true := truthy_of_containsSub _ _ (by decide) h4
    have hs : 5 ≤ browserFeatureScore req := by
      unfold browserFeatureScore
      rw [ha, he, h1, h2, h3, h4, h5, h6]
      simp only [Bool.true_and, Bool.and_self, if_true]
      omega
    refine ⟨hs, ?_⟩
    unfold checkModernBrowserFeatures minScore
    simpa using hs

/-- Claim C5: with enableReferrer on and all earlier enabled steps
passing, a download request carrying no referrer whose path does not
mention the index page is denied with the referrer reason. -/
theorem c5_missing_referrer_denied (cfg : Config) (dc : DownloadCheck) (req : Request)
    (hdc : cfg.downloadCheck = some dc) (hon : dc.enableReferrer = true)
    (hdl : isFileDownload req = true)
    (hnr : truthy req.referer = false)
    (hua : dc.enableUserAgent = false ∨ isValidBrowser req.userAgent = true)
    (hbf : dc.enableBrowserFeature = false ∨ checkModernBrowserFeatures req = true)
    (hpath : containsSub req.path "index.html" = false) :
    validateDownloadRequest cfg req = Decision.deny referrerDenyReason := by
  rcases config_eq cfg _ hdc with rfl
  have hbyp : referrerBypass ⟨some dc⟩ req = false := by
    simp [referrerBypass, hnr]
  have hup : (enabledUserAgent ⟨some dc⟩ && !isValidBrowser req.userAgent) = false := by
    rcases hua with h | h
    · have h0 : enabledUserAgent ⟨some dc⟩ = false := h
      rw [h0]; rfl
    · rw [h]; simp
  have hfp : (enabledBrowserFeature ⟨some dc⟩ && !checkModernBrowserFeatures req) = false := by
    rcases hbf with h | h
    · have h0 : enabledBrowserFeature ⟨some dc⟩ = false := h
      rw [h0]; rfl
    · rw [h]; simp
  have her : enabledReferrer ⟨some dc⟩ = true := hon
  unfold validateDownloadRequest
  simp [hdl, hbyp, hup, hfp, her, hnr, hpath]

/-- Witness for C5: a zip download from a modern browser with rich
headers but no referrer is denied with the referrer reason. -/
theorem c5_witness :
    validateDownloadRequest cfgAllOn
      { reqBase with
          path := "/files/a.zip"
          accept := some "text/html,application/xhtml+xml,image/webp,*/*"
          acceptLanguage := some "en-US,en"
          acceptEncoding := some "gzip, deflate, br"
          cacheControl := some "max-age=0"
          userAgent := some chromeUA }
      = Decision.deny referrerDenyReason :=
  c5_missing_referrer_denied cfgAllOn ⟨true, true, true, true, some ["example.com"]⟩ _
    (by decide) (by decide) (by decide) (by decide)
    (Or.inr (by decide)) (Or.inr (by decide)) (by decide)

/-- Claim C6: with enableJsCheck on and every other enabled check
passing, the request without the proof cookie receives the challenge;
the identical request carrying the cookie the challenge page sets is
allowed; and the third identical request with the cookie still present
is allowed again.  The gate is a pure function of the request, so the
decision cannot flip back between the second and third request. -/
theorem c6_challenge_round_trip (cfg : Config) (dc : DownloadCheck) (req : Request)
    (hdc : cfg.downloadCheck = some dc) (hjs : dc.enableJsCheck = true)
    (hdl : isFileDownload req = true)
    (hbyp : referrerBypass cfg req = false)
    (hua : dc.enableUserAgent = false ∨ isValidBrowser req.userAgent = true)
    (hbf : dc.enableBrowserFeature = false ∨ checkModernBrowserFeatures req = true)
    (href : dc.enableReferrer = false ∨ truthy req.referer = true
            ∨ containsSub req.path "index.html" = true)
    (hnc : hasJsCookie req = false) :
    validateDownloadRequest cfg req = Decision.challenge ∧
    validateDownloadRequest cfg (setJsCookie req) = Decision.allow ∧
    validateDownloadRequest cfg (setJsCookie req) = Decision.allow := by
  rcases config_eq cfg _ hdc with rfl
  have hej : enabledJsCheck ⟨some dc⟩ = true := hjs
  have hup : (enabledUserAgent ⟨some dc⟩ && !isValidBrowser req.userAgent) = false := by
    rcases hua with h | h
    · have h0 : enabledUserAgent ⟨some dc⟩ = false := h
      rw [h0]; rfl
    · rw [h]; simp
  have hfp : (enabledBrowserFeature ⟨some dc⟩ && !checkModernBrowserFeatures req) = false := by
    rcases hbf with h | h
    · have h0 : enabledBrowserFeature ⟨some dc⟩ = false := h
      rw [h0]; rfl
    · rw [h]; simp
  have hrp : (enabledReferrer ⟨some dc⟩ && !truthy req.referer
              && !containsSub req.path "index.html") = false := by
    rcases href with h | h | h
    · have h0 : enabledReferrer ⟨some dc⟩ = false := h
      rw [h0]; rfl
    · rw [h]; simp
    · rw [h]; simp
  have hfirst : validateDownloadRequest ⟨some dc⟩ req = Decision.challenge := by
    unfold validateDownloadRequest
    simp [hdl, hbyp, hup, hfp, hrp, hej, hnc]
  have hdl2 : isFileDownload (setJsCookie req) = true := hdl
  have hbyp2 : referrerBypass ⟨some dc⟩ (setJsCookie req) = false := hbyp
  have hup2 : (enabledUserAgent ⟨some dc⟩ && !isValidBrowser (setJsCookie req).userAgent) = false := hup
  have hfp2 : (enabledBrowserFeature ⟨some dc⟩ && !checkModernBrowserFeatures (setJsCookie req)) = false := hfp
  have hrp2 : (enabledReferrer ⟨some dc⟩ && !truthy (setJsCookie req).referer
               && !containsSub (setJsCookie req).path "index.html") = false := hrp
  have hc2 : hasJsCookie (setJsCookie req) = true := rfl
  have hsecond : validateDownloadRequest ⟨some dc⟩ (setJsCookie req) = Decision.allow := by
    unfold validateDownloadRequest
    simp [hdl2, hbyp2, hup2, hfp2, hrp2, hc2]
  exact ⟨hfirst, hsecond, hsecond⟩

/-- Witness for C6: a concrete zip download from a modern browser with
a same-site referrer is challenged without the cookie and allowed on
the two retries that carry it. -/
theorem c6_witness :
    validateDownloadRequest cfgAllOn
      { reqBase with
          path := "/files/a.zip"
          accept := some "text/html,application/xhtml+xml,image/webp,*/*"
          acceptLanguage := some "en-US,en"
          acceptEncoding := some "gzip, deflate, br"
          cacheControl := some "max-age=0"
          userAgent := some chromeUA
          referer := some "http://localhost/files" }
      = Decision.challenge ∧
    validateDownloadRequest cfgAllOn
      (setJsCookie
        { reqBase with
            path := "/files/a.zip"
            accept := some "text/html,application/xhtml+xml,image/webp,*/*"
            acceptLanguage := some "en-US,en"
            acceptEncoding := some "gzip, deflate, br"
            cacheControl := some "max-age=0"
            userAgent := some chromeUA
            referer := some "http://localhost/files" })
      = Decision.allow :=
  have h := c6_challenge_round_trip cfgAllOn ⟨true, true, true, true, some ["example.com"]⟩ _
    (by decide) (by decide) (by decide) (by decide)
    (Or.inr (by decide)) (Or.inr (by decide)) (Or.inr (Or.inl (by decide))) (by decide)
  ⟨h.1, h.2.1⟩

/-- Claim C7: a check whose configuration flag is off never produces
its outcome (the three deny reasons are pairwise distinct, so a deny
carrying a step's reason can only come from that step), and when the
whole downloadCheck block is absent every request is allowed. -/
theorem c7_disabled_checks_fail_open (cfg : Config) (req : Request) :
    (enabledUserAgent cfg = false →
      validateDownloadRequest cfg req ≠ Decision.deny uaDenyReason) ∧
    (enabledBrowserFeature cfg = false →
      validateDownloadRequest cfg req ≠ Decision.deny featureDenyReason) ∧
    (enabledReferrer cfg = false →
      validateDownloadRequest cfg req ≠ Decision.deny referrerDenyReason) ∧
    (enabledJsCheck cfg = false →
      validateDownloadRequest cfg req ≠ Decision.challenge) ∧
    (cfg.downloadCheck = none → validateDownloadRequest cfg req = Decision.allow) := by
  have andl : ∀ a b : Bool, (a && b) = true → a = true := by
    intro a b h
    exact (Bool.and_eq_true a b ▸ h).1
  have hshape :
      validateDownloadRequest cfg req = Decision.allow ∨
      (validateDownloadRequest cfg req = Decision.deny uaDenyReason
        ∧ enabledUserAgent cfg = true) ∨
      (validateDownloadRequest cfg req = Decision.deny featureDenyReason
        ∧ enabledBrowserFeature cfg = true) ∨
      (validateDownloadRequest cfg req = Decision.deny referrerDenyReason
        ∧ enabledReferrer cfg = true) ∨
      (validateDownloadRequest cfg req = Decision.challenge
        ∧ enabledJsCheck cfg = true) := by
    unfold validateDownloadRequest
    split
    · exact Or.inl rfl
    · split
      · exact Or.inl rfl
      · split
        · next h =>
          exact Or.inr (Or.inl ⟨rfl, andl _ _ h⟩)
        · split
          · next h =>
            exact Or.inr (Or.inr (Or.inl ⟨rfl, andl _ _ h⟩))
          · split
            · next h =>
              exact Or.inr (Or.inr (Or.inr (Or.inl
                ⟨rfl, andl _ _ (andl _ _ h)⟩)))
            · split
              · next h =>
                exact Or.inr (Or.inr (Or.inr (Or.inr ⟨rfl, andl _ _ h⟩)))
              · exact Or.inl rfl
  have hne1 : uaDenyReason ≠ featureDenyReason := by decide
  have hne2 : uaDenyReason ≠ referrerDenyReason := by decide
  have hne3 : featureDenyReason ≠ referrerDenyReason := by decide
  refine ⟨?_, ?_, ?_, ?_, ?_⟩
  · intro hoff heq
    rcases hshape with h | ⟨h, hf⟩ | ⟨h, hf⟩ | ⟨h, hf⟩ | ⟨h, hf⟩
    · rw [heq] at h; exact Decision.noConfusion h
    · rw [hoff] at hf; exact Bool.noConfusion hf
    · rw [heq] at h; exact hne1 (Decision.deny.inj h)
    · rw [heq] at h; exact hne2 (Decision.deny.inj h)
    · rw [heq] at h; exact Decision.noConfusion h
  · intro hoff heq
    rcases hshape with h | ⟨h, hf⟩ | ⟨h, hf⟩ | ⟨h, hf⟩ | ⟨h, hf⟩
    · rw [heq] at h; exact Decision.noConfusion h
    · rw [heq] at h; exact hne1 (Decision.deny.inj h).symm
    · rw [hoff] at hf; exact Bool.noConfusion hf
    · rw [heq] at h; exact hne3 (Decision.deny.inj h)
    · rw [heq] at h; exact Decision.noConfusion h
  · intro hoff heq
    rcases hshape with h | ⟨h, hf⟩ | ⟨h, hf⟩ | ⟨h, hf⟩ | ⟨h, hf⟩
    · rw [heq] at h; exact Decision.noConfusion h
    · rw [heq] at h; exact hne2 (Decision.deny.inj h).symm
    · rw [heq] at h; exact hne3 (Decision.deny.inj h).symm
    · rw [hoff] at hf; exact Bool.noConfusion hf
    · rw [heq] at h; exact Decision.noConfusion h
  · intro hoff heq
    rcases hshape with h | ⟨h, hf⟩ | ⟨h, hf⟩ | ⟨h, hf⟩ | ⟨h, hf⟩
    · rw [heq] at h; exact Decision.noConfusion h
    · rw [heq] at h; exact Decision.noConfusion h
    · rw [heq] at h; exact Decision.noConfusion h
    · rw [heq] at h; exact Decision.noConfusion h
    · rw [hoff] at hf; exact Bool.noConfusion hf
  · intro hnone
    rcases config_eq cfg _ hnone with rfl
    unfold validateDownloadRequest referrerBypass enabledUserAgent enabledBrowserFeature
      enabledReferrer enabledJsCheck
    simp

/-- Map membership is key-list membership. -/
lemma mapHas_iff {α : Type} (m : List (String × α)) (k : String) :
    mapHas m k = true ↔ k ∈ mapKeys m := by
  unfold mapHas mapKeys
  rw [List.any_eq_true]
  constructor
  · rintro ⟨p, hp, he⟩
    rw [beq_iff_eq] at he
    exact he ▸ List.mem_map_of_mem Prod.fst hp
  · intro hk
    rcases List.mem_map.mp hk with ⟨p, hp, he⟩
    exact ⟨p, hp, by rw [beq_iff_eq]; exact he⟩

/-- Set of a present key leaves the key list unchanged; set of a fresh
key appends it. -/
lemma mapKeys_mapSet {α : Type} (m : List (String × α)) (k : String) (v : α) :
    mapKeys (mapSet m k v)
      = if mapHas m k then mapKeys m else mapKeys m ++ [k] := by
  unfold mapSet
  by_cases h : mapHas m k = true
  · rw [if_pos h, if_pos h]
    unfold mapKeys
    rw [List.map_map]
    apply List.map_congr_left
    intro p _
    by_cases hpk : p.1 = k
    · simp [Function.comp, hpk]
    · simp [Function.comp, hpk]
  · rw [if_neg h, if_neg h]
    simp [mapKeys]

/-- Delete filters the key list. -/
lemma mapKeys_mapDelete {α : Type} (m : List (String × α)) (k : String) :
    mapKeys (mapDelete m k) = (mapKeys m).filter (fun x => x != k) := by
  unfold mapDelete mapKeys
  induction m with
  | nil => rfl
  | cons p rest ih =>
    simp only [List.filter_cons, List.map_cons]
    by_cases hp : p.1 = k
    · simp [hp, ih]
    · simp [hp, ih]

/-- A key absent from a map is absent after any delete. -/
lemma mapHas_mapDelete_false {α : Type} (m : List (String × α)) (k0 k : String)
    (h : mapHas m k = false) : mapHas (mapDelete m k0) k = false := by
  by_contra hx
  have hx' : mapHas (mapDelete m k0) k = true := by simpa using hx
  rw [mapHas_iff, mapKeys_mapDelete] at hx'
  have : k ∈ mapKeys m := List.mem_of_mem_filter hx'
  rw [← mapHas_iff] at this
  rw [this] at h
  exact Bool.noConfusion h

/-- Overwriting a present key makes get return the new value. -/
lemma mapGet_overwrite {α : Type} (m : List (String × α)) (k : String) (v : α)
    (h : mapHas m k = true) :
    mapGet (m.map fun p => if p.1 == k then (k, v) else p) k = some v := by
  induction m with
  | nil => exact Bool.noConfusion h
  | cons p rest ih =>
    by_cases hp : p.1 = k
    · simp [mapGet, List.find?, hp]
    · have h' : mapHas rest k = true := by
        unfold mapHas at h
        rw [List.any_cons] at h
        have hb : (p.1 == k) = false := by simp [hp]
        rw [hb] at h
        simpa [mapHas] using h
      have ihr := ih h'
      unfold mapGet at ihr ⊢
      simp only [List.map_cons, List.find?]
      have hb : ((if p.1 == k then (k, v) else p).1 == k) = false := by simp [hp]
      rw [hb]
      exact ihr

/-- Appending a fresh key makes get return the appended value. -/
lemma mapGet_append_fresh {α : Type} (m : List (String × α)) (k : String) (v : α)
    (h : mapHas m k = false) :
    mapGet (m ++ [(k, v)]) k = some v := by
  induction m with
  | nil => simp [mapGet, List.find?]
  | cons p rest ih =>
    unfold mapHas at h
    rw [List.any_cons] at h
    have hb : (p.1 == k) = false := by
      by_contra hx
      have : (p.1 == k) = true := by simpa using hx
      rw [this] at h
      exact Bool.noConfusion h
    have h' : mapHas rest k = false := by
      rw [hb] at h
      simpa [mapHas] using h
    unfold mapGet at ih ⊢
    simp only [List.cons_append, List.find?, hb]
    exact ih h'

/-- Set then get of the same key yields the written value. -/
lemma mapGet_mapSet_self {α : Type} (m : List (String × α)) (k : String) (v : α) :
    mapGet (mapSet m k v) k = some v := by
  unfold mapSet
  by_cases h : mapHas m k = true
  · rw [if_pos h]
    exact mapGet_overwrite m k v h
  · rw [if_neg h]
    have h0 : mapHas m k = false := by simpa using h
    exact mapGet_append_fresh m k v h0

/-- The key list has the map's length. -/
lemma mapKeys_length {α : Type} (m : List (String × α)) :
    (mapKeys m).length = m.length :=
  List.length_map m Prod.fst

/-- One scan step keeps an entry that is no younger than the candidate
and no younger than the running best. -/
lemma oldestStep_some (acc : Option (String × Nat)) (a : String × Nat) :
    ∃ r, oldestStep acc a = some r ∧ (r = a ∨ acc = some r) ∧ r.2 ≤ a.2 ∧
      (∀ q, acc = some q → r.2 ≤ q.2) := by
  cases acc with
  | none =>
    exact ⟨a, rfl, Or.inl rfl, le_refl _, fun q hq => Option.noConfusion hq⟩
  | some b =>
    by_cases hlt : a.2 < b.2
    · refine ⟨a, ?_, Or.inl rfl, le_refl _, ?_⟩
      · simp [oldestStep, hlt]
      · intro q hq
        injection hq with hbq
        rw [← hbq]
        exact le_of_lt hlt
    · refine ⟨b, ?_, Or.inr rfl, Nat.le_of_not_lt hlt, ?_⟩
      · simp [oldestStep, hlt]
      · intro q hq
        injection hq with hbq
        rw [← hbq]

/-- The scan fold returns an element of the list or the accumulator,
minimal among both. -/
lemma foldl_oldestStep_spec (l : List (String × Nat)) :
    ∀ (acc : Option (String × Nat)) (p : String × Nat),
      l.foldl oldestStep acc = some p →
      (p ∈ l ∨ acc = some p) ∧ (∀ q ∈ l, p.2 ≤ q.2) ∧
        (∀ q, acc = some q → p.2 ≤ q.2) := by
  induction l with
  | nil =>
    intro acc p h
    simp only [List.foldl_nil] at h
    refine ⟨Or.inr h, by simp, ?_⟩
    intro q hq
    rw [h] at hq
    injection hq with hpq
    rw [hpq]
  | cons a l ih =>
    intro acc p h
    rw [List.foldl_cons] at h
    obtain ⟨hmem, hmin, hacc2⟩ := ih (oldestStep acc a) p h
    obtain ⟨r, hr, hralt, hra, hrq⟩ := oldestStep_some acc a
    have hpr : p.2 ≤ r.2 := hacc2 r hr
    refine ⟨?_, ?_, ?_⟩
    · rcases hmem with h1 | h1
      · exact Or.inl (List.mem_cons_of_mem a h1)
      · rw [hr] at h1
        injection h1 with hrp
        rcases hralt with h2 | h2
        · exact Or.inl (List.mem_cons.mpr (Or.inl (by rw [← hrp, h2])))
        · exact Or.inr (hrp ▸ h2)
    · intro q hq
      rcases List.mem_cons.mp hq with h2 | h2
      · rw [h2]
        exact le_trans hpr hra
      · exact hmin q h2
    · intro q hq
      exact le_trans hpr (hrq q hq)

/-- The scan fold starting from a seen entry always returns some entry. -/
lemma foldl_oldestStep_isSome (l : List (String × Nat)) :
    ∀ q : String × Nat, ∃ p, l.foldl oldestStep (some q) = some p := by
  induction l with
  | nil => exact fun q => ⟨q, rfl⟩
  | cons a l ih =>
    intro q
    rw [List.foldl_cons]
    obtain ⟨r, hr, _, _, _⟩ := oldestStep_some (some q) a
    rw [hr]
    exact ih r

/-- scanOldest returns an entry of the list with minimal access time. -/
lemma scanOldest_spec (l : List (String × Nat)) (p : String × Nat)
    (h : scanOldest l = some p) : p ∈ l ∧ ∀ q ∈ l, p.2 ≤ q.2 := by
  obtain ⟨hmem, hmin, _⟩ := foldl_oldestStep_spec l none p h
  rcases hmem with h1 | h1
  · exact ⟨h1, hmin⟩
  · exact Option.noConfusion h1

/-- scanOldest of a nonempty list finds an entry. -/
lemma scanOldest_ne_nil (l : List (String × Nat)) (h : l ≠ []) :
    ∃ p, scanOldest l = some p := by
  cases l with
  | nil => exact absurd rfl h
  | cons a l =>
    unfold scanOldest
    rw [List.foldl_cons]
    exact foldl_oldestStep_isSome l a

/-- Claim C9: on a cache hit — the stored value may be a real entry or
the null marker of a failed lookup — getIPInfo returns the stored value,
performs no external call (its result does not depend on what the
provider would answer, so a cached failure is never retried), leaves the
value map untouched and refreshes the access time of that address to the
current clock. -/
theorem c9_cache_hit (st : GeoState) (ip : String) (now : Nat) (res : LookupRes)
    (h : mapHas st.ipInfoCache ip = true) :
    (getIPInfo st ip now res).value = (mapGet st.ipInfoCache ip).join ∧
    (getIPInfo st ip now res).externalCall = false ∧
    (getIPInfo st ip now res).state.ipInfoCache = st.ipInfoCache ∧
    (getIPInfo st ip now res).state.ipAccessTimes = mapSet st.ipAccessTimes ip now ∧
    mapGet (getIPInfo st ip now res).state.ipAccessTimes ip = some now ∧
    getIPInfo st ip now res = getIPInfo st ip now LookupRes.failure := by
  unfold getIPInfo
  rw [if_pos h, if_pos h]
  exact ⟨rfl, rfl, rfl, rfl, mapGet_mapSet_self st.ipAccessTimes ip now, rfl⟩

/-- Witness for C9: a hit on a cached failed lookup returns the null
marker with no external call even though the provider would now
succeed. -/
theorem c9_witness :
    (getIPInfo ⟨[("9.9.9.9", none)], [("9.9.9.9", 3)]⟩ "9.9.9.9" 8
        (LookupRes.success ⟨some "US", some "X", some "Y"⟩)).value = none ∧
    (getIPInfo ⟨[("9.9.9.9", none)], [("9.9.9.9", 3)]⟩ "9.9.9.9" 8
        (LookupRes.success ⟨some "US", some "X", some "Y"⟩)).externalCall = false ∧
    mapGet (getIPInfo ⟨[("9.9.9.9", none)], [("9.9.9.9", 3)]⟩ "9.9.9.9" 8
        (LookupRes.success ⟨some "US", some "X", some "Y"⟩)).state.ipAccessTimes
      "9.9.9.9" = some 8 :=
  have h := c9_cache_hit ⟨[("9.9.9.9", none)], [("9.9.9.9", 3)]⟩ "9.9.9.9" 8
    (LookupRes.success ⟨some "US", some "X", some "Y"⟩) (by decide)
  ⟨h.1, h.2.1, h.2.2.2.2.1⟩

/-- The eviction block preserves equality of the two key lists. -/
lemma evictIfFull_keys (st : GeoState)
    (h : mapKeys st.ipInfoCache = mapKeys st.ipAccessTimes) :
    mapKeys (evictIfFull st).ipInfoCache = mapKeys (evictIfFull st).ipAccessTimes := by
  unfold evictIfFull
  split
  · cases hsc : scanOldest st.ipAccessTimes with
    | none => simpa [hsc] using h
    | some p =>
      obtain ⟨k, t⟩ := p
      by_cases hk : (k != "") = true
      · show mapKeys (if (k != "") = true then
              GeoState.mk (mapDelete st.ipInfoCache k) (mapDelete st.ipAccessTimes k)
            else st).ipInfoCache
          = mapKeys (if (k != "") = true then
              GeoState.mk (mapDelete st.ipInfoCache k) (mapDelete st.ipAccessTimes k)
            else st).ipAccessTimes
        rw [if_pos hk]
        rw [mapKeys_mapDelete, mapKeys_mapDelete, h]
      · show mapKeys (if (k != "") = true then
              GeoState.mk (mapDelete st.ipInfoCache k) (mapDelete st.ipAccessTimes k)
            else st).ipInfoCache
          = mapKeys (if (k != "") = true then
              GeoState.mk (mapDelete st.ipInfoCache k) (mapDelete st.ipAccessTimes k)
            else st).ipAccessTimes
        rw [if_neg hk]
        exact h
  · exact h

/-- The eviction block never introduces a key into the value map. -/
lemma evictIfFull_hasFalse (st : GeoState) (ip : String)
    (h : mapHas st.ipInfoCache ip = false) :
    mapHas (evictIfFull st).ipInfoCache ip = false := by
  unfold evictIfFull
  split
  · cases hsc : scanOldest st.ipAccessTimes with
    | none => simpa [hsc] using h
    | some p =>
      obtain ⟨k, t⟩ := p
      by_cases hk : (k != "") = true
      · show mapHas (if (k != "") = true then
              GeoState.mk (mapDelete st.ipInfoCache k) (mapDelete st.ipAccessTimes k)
            else st).ipInfoCache ip = false
        rw [if_pos hk]
        exact mapHas_mapDelete_false st.ipInfoCache k ip h
      · show mapHas (if (k != "") = true then
              GeoState.mk (mapDelete st.ipInfoCache k) (mapDelete st.ipAccessTimes k)
            else st).ipInfoCache ip = false
        rw [if_neg hk]
        exact h
  · exact h

/-- Claim C10: every getIPInfo operation — hit, miss with a successful
external lookup, miss with a failed lookup, each with or without the
eviction — preserves the invariant that the value map and the
access-time map hold exactly the same keys. -/
theorem c10_two_map_consistency (st : GeoState) (ip : String) (now : Nat)
    (res : LookupRes)
    (h : mapKeys st.ipInfoCache = mapKeys st.ipAccessTimes) :
    mapKeys (getIPInfo st ip now res).state.ipInfoCache
      = mapKeys (getIPInfo st ip now res).state.ipAccessTimes := by
  unfold getIPInfo
  by_cases hh : mapHas st.ipInfoCache ip = true
  · rw [if_pos hh]
    show mapKeys st.ipInfoCache = mapKeys (mapSet st.ipAccessTimes ip now)
    have hht : mapHas st.ipAccessTimes ip = true := by
      rw [mapHas_iff] at hh ⊢
      rw [← h]
      exact hh
    rw [mapKeys_mapSet, if_pos hht]
    exact h
  · rw [if_neg hh]
    have hh0 : mapHas st.ipInfoCache ip = false := by simpa using hh
    have h1 := evictIfFull_keys st h
    have hc1 : mapHas (evictIfFull st).ipInfoCache ip = false :=
      evictIfFull_hasFalse st ip hh0
    have ht1 : mapHas (evictIfFull st).ipAccessTimes ip = false := by
      by_contra hx
      have hx' : mapHas (evictIfFull st).ipAccessTimes ip = true := by simpa using hx
      rw [mapHas_iff] at hx'
      rw [← h1] at hx'
      rw [← mapHas_iff] at hx'
      rw [hx'] at hc1
      exact Bool.noConfusion hc1
    cases res with
    | success info =>
      show mapKeys (mapSet (evictIfFull st).ipInfoCache ip (some info))
        = mapKeys (mapSet (evictIfFull st).ipAccessTimes ip now)
      rw [mapKeys_mapSet, mapKeys_mapSet, if_neg (by rw [hc1]; exact Bool.noConfusion),
        if_neg (by rw [ht1]; exact Bool.noConfusion), h1]
    | failure =>
      show mapKeys (mapSet (evictIfFull st).ipInfoCache ip none)
        = mapKeys (mapSet (evictIfFull st).ipAccessTimes ip now)
      rw [mapKeys_mapSet, mapKeys_mapSet, if_neg (by rw [hc1]; exact Bool.noConfusion),
        if_neg (by rw [ht1]; exact Bool.noConfusion), h1]

/-- Witness for C10: a miss with a failed lookup on a one-entry cache
keeps the two key lists equal. -/
theorem c10_witness :
    mapKeys (getIPInfo ⟨[("1.1.1.1", none)], [("1.1.1.1", 4)]⟩ "2.2.2.2" 9
        LookupRes.failure).state.ipInfoCache
      = mapKeys (getIPInfo ⟨[("1.1.1.1", none)], [("1.1.1.1", 4)]⟩ "2.2.2.2" 9
        LookupRes.failure).state.ipAccessTimes :=
  c10_two_map_consistency ⟨[("1.1.1.1", none)], [("1.1.1.1", 4)]⟩ "2.2.2.2" 9
    LookupRes.failure (by decide)

/-- Filtering one present key out of a duplicate-free list shortens it
by exactly one. -/
lemma filter_ne_length (l : List String) (k : String) (hnd : l.Nodup)
    (hmem : k ∈ l) :
    (l.filter (fun x => x != k)).length + 1 = l.length := by
  induction l with
  | nil => cases hmem
  | cons a rest ih =>
    rw [List.nodup_cons] at hnd
    by_cases ha : a = k
    · subst ha
      have hfr : rest.filter (fun x => x != a) = rest := by
        apply List.filter_eq_self.mpr
        intro x hx
        have hxa : x ≠ a := fun he => hnd.1 (he ▸ hx)
        simp [hxa]
      rw [List.filter_cons]
      have hb : (a != a) = false := by simp
      rw [hb]
      simp [hfr]
    · have hmem2 : k ∈ rest := by
        rcases List.mem_cons.mp hmem with h | h
        · exact absurd h.symm ha
        · exact h
      rw [List.filter_cons]
      have hb : (a != k) = true := by simp [ha]
      rw [hb]
      simp only [List.length_cons, if_true]
      have := ih hnd.2 hmem2
      omega

/-- The empty state satisfies the invariant. -/
lemma geoInv_empty : geoInv emptyGeoState := by
  refine ⟨rfl, List.nodup_nil, ?_, by decide⟩
  intro h
  cases h

/-- On a miss, both result maps are the eviction block's maps with the
new address written. -/
lemma getIPInfo_miss_state (st : GeoState) (ip : String) (now : Nat)
    (res : LookupRes) (hh : mapHas st.ipInfoCache ip = false) :
    (getIPInfo st ip now res).state.ipInfoCache
        = mapSet (evictIfFull st).ipInfoCache ip
            (match res with
             | LookupRes.success info => some info
             | LookupRes.failure => none) ∧
    (getIPInfo st ip now res).state.ipAccessTimes
        = mapSet (evictIfFull st).ipAccessTimes ip now := by
  unfold getIPInfo
  rw [if_neg (by rw [hh]; exact Bool.noConfusion)]
  cases res with
  | success info => exact ⟨rfl, rfl⟩
  | failure => exact ⟨rfl, rfl⟩

/-- At capacity, under the invariant, the eviction block deletes from
both maps the entry found by the scan, which is a minimal-access-time
entry of the access map. -/
lemma evictIfFull_full (st : GeoState)
    (hkeys : mapKeys st.ipInfoCache = mapKeys st.ipAccessTimes)
    (_hnd : (mapKeys st.ipInfoCache).Nodup)
    (hne : "" ∉ mapKeys st.ipInfoCache)
    (hlen : st.ipInfoCache.length = MAX_CACHE_SIZE) :
    ∃ k t, scanOldest st.ipAccessTimes = some (k, t) ∧
      (k, t) ∈ st.ipAccessTimes ∧ (∀ q ∈ st.ipAccessTimes, t ≤ q.2) ∧
      evictIfFull st
        = GeoState.mk (mapDelete st.ipInfoCache k) (mapDelete st.ipAccessTimes k) ∧
      k ∈ mapKeys st.ipInfoCache := by
  have htne : st.ipAccessTimes ≠ [] := by
    intro h0
    have h1 : (mapKeys st.ipInfoCache).length = st.ipInfoCache.length :=
      mapKeys_length _
    rw [hkeys, h0, hlen] at h1
    exact absurd h1 (by decide)
  obtain ⟨p, hp⟩ := scanOldest_ne_nil _ htne
  obtain ⟨k, t⟩ := p
  obtain ⟨hmem, hmin⟩ := scanOldest_spec _ _ hp
  have hkmem : k ∈ mapKeys st.ipAccessTimes := List.mem_map_of_mem Prod.fst hmem
  rw [← hkeys] at hkmem
  have hkne : k ≠ "" := fun he => hne (he ▸ hkmem)
  have hkb : (k != "") = true := by simp [hkne]
  refine ⟨k, t, hp, hmem, hmin, ?_, hkmem⟩
  unfold evictIfFull
  rw [if_pos (le_of_eq hlen.symm), hp]
  show (if (k != "") = true then
      GeoState.mk (mapDelete st.ipInfoCache k) (mapDelete st.ipAccessTimes k)
    else st) = _
  rw [if_pos hkb]

/-- Below capacity the eviction block is the identity. -/
lemma evictIfFull_below (st : GeoState)
    (h : st.ipInfoCache.length < MAX_CACHE_SIZE) : evictIfFull st = st := by
  unfold evictIfFull
  rw [if_neg (Nat.not_le_of_lt h)]

/-- One lookup with a nonempty address preserves the cache invariant. -/
lemma geoInv_step (st : GeoState) (ip : String) (now : Nat) (res : LookupRes)
    (hinv : geoInv st) (hip : ip ≠ "") :
    geoInv (getIPInfo st ip now res).state := by
  obtain ⟨hkeys, hnd, hne, hlen⟩ := hinv
  by_cases hh : mapHas st.ipInfoCache ip = true
  · unfold getIPInfo
    rw [if_pos hh]
    refine ⟨?_, hnd, hne, hlen⟩
    show mapKeys st.ipInfoCache = mapKeys (mapSet st.ipAccessTimes ip now)
    have hht : mapHas st.ipAccessTimes ip = true := by
      rw [mapHas_iff] at hh ⊢
      rw [← hkeys]
      exact hh
    rw [mapKeys_mapSet, if_pos hht]
    exact hkeys
  · have hh0 : mapHas st.ipInfoCache ip = false := by simpa using hh
    obtain ⟨hcache, htimes⟩ := getIPInfo_miss_state st ip now res hh0
    have hc1 : mapHas (evictIfFull st).ipInfoCache ip = false :=
      evictIfFull_hasFalse st ip hh0
    have hkeys1 : mapKeys (evictIfFull st).ipInfoCache
        = mapKeys (evictIfFull st).ipAccessTimes := evictIfFull_keys st hkeys
    have ht1 : mapHas (evictIfFull st).ipAccessTimes ip = false := by
      by_contra hx
      have hx' : mapHas (evictIfFull st).ipAccessTimes ip = true := by simpa using hx
      rw [mapHas_iff, ← hkeys1, ← mapHas_iff] at hx'
      rw [hx'] at hc1
      exact Bool.noConfusion hc1
    have hkc : mapKeys (getIPInfo st ip now res).state.ipInfoCache
        = mapKeys (evictIfFull st).ipInfoCache ++ [ip] := by
      rw [hcache, mapKeys_mapSet, if_neg (by rw [hc1]; exact Bool.noConfusion)]
    have hkt : mapKeys (getIPInfo st ip now res).state.ipAccessTimes
        = mapKeys (evictIfFull st).ipAccessTimes ++ [ip] := by
      rw [htimes, mapKeys_mapSet, if_neg (by rw [ht1]; exact Bool.noConfusion)]
    have hsub : ∀ x, x ∈ mapKeys (evictIfFull st).ipInfoCache
        → x ∈ mapKeys st.ipInfoCache := by
      intro x hx
      by_cases hfull : st.ipInfoCache.length = MAX_CACHE_SIZE
      · obtain ⟨k, t, _, _, _, hev, _⟩ := evictIfFull_full st hkeys hnd hne hfull
        rw [hev] at hx
        have : x ∈ (mapKeys st.ipInfoCache).filter (fun y => y != k) := by
          rw [← mapKeys_mapDelete]
          exact hx
        exact List.mem_of_mem_filter this
      · rw [evictIfFull_below st (lt_of_le_of_ne hlen hfull)] at hx
        exact hx
    have hnd1 : (mapKeys (evictIfFull st).ipInfoCache).Nodup := by
      by_cases hfull : st.ipInfoCache.length = MAX_CACHE_SIZE
      · obtain ⟨k, t, _, _, _, hev, _⟩ := evictIfFull_full st hkeys hnd hne hfull
        rw [hev]
        show (mapKeys (mapDelete st.ipInfoCache k)).Nodup
        rw [mapKeys_mapDelete]
        exact hnd.filter _
      · rw [evictIfFull_below st (lt_of_le_of_ne hlen hfull)]
        exact hnd
    have hlen1 : (evictIfFull st).ipInfoCache.length + 1 ≤ MAX_CACHE_SIZE := by
      by_cases hfull : st.ipInfoCache.length = MAX_CACHE_SIZE
      · obtain ⟨k, t, _, _, _, hev, hkm⟩ := evictIfFull_full st hkeys hnd hne hfull
        have h1 : ((mapKeys st.ipInfoCache).filter (fun y => y != k)).length + 1
            = (mapKeys st.ipInfoCache).length := filter_ne_length _ k hnd hkm
        have h2 : (evictIfFull st).ipInfoCache.length
            = ((mapKeys st.ipInfoCache).filter (fun y => y != k)).length := by
          rw [hev]
          show (mapDelete st.ipInfoCache k).length = _
          rw [← mapKeys_length, mapKeys_mapDelete]
        rw [mapKeys_length, hfull] at h1
        omega
      · have := lt_of_le_of_ne hlen hfull
        rw [evictIfFull_below st this]
        omega
    refine ⟨?_, ?_, ?_, ?_⟩
    · rw [hkc, hkt, hkeys1]
    · rw [hkc]
      rw [List.nodup_append]
      refine ⟨hnd1, List.nodup_singleton ip, ?_⟩
      intro x hx hx2
      rcases List.mem_singleton.mp hx2 with rfl
      rw [← mapHas_iff] at hx
      rw [hx] at hc1
      exact Bool.noConfusion hc1
    · rw [hkc]
      intro hx
      rcases List.mem_append.mp hx with h1 | h1
      · exact hne (hsub _ h1)
      · exact hip (List.mem_singleton.mp h1).symm
    · have : ((getIPInfo st ip now res).state.ipInfoCache).length
          = (evictIfFull st).ipInfoCache.length + 1 := by
        rw [← mapKeys_length, hkc, List.length_append, mapKeys_length]
        rfl
      omega

/-- The invariant carries over any run whose addresses are nonempty. -/
lemma runGeo_inv (ops : List GeoOp) :
    ∀ st, geoInv st → (∀ o ∈ ops, o.ip ≠ "") → geoInv (runGeo st ops) := by
  induction ops with
  | nil => exact fun st h _ => h
  | cons o rest ih =>
    intro st h hops
    show geoInv (runGeo (getIPInfo st o.ip o.now o.res).state rest)
    exact ih _ (geoInv_step st o.ip o.now o.res h (hops o (List.mem_cons_self o rest)))
      (fun o2 h2 => hops o2 (List.mem_cons_of_mem o h2))

set_option maxRecDepth 10000 in
/-- Counterexample to C8 as stated: starting from the empty cache, 101
lookups — the empty-string address, 99 further distinct addresses, then
one more at capacity — leave 101 entries in the cache.  The eviction
scan finds the empty-string key as oldest, the truthiness guard of
line 55 rejects it, nothing is evicted and the insert overflows the
bound. -/
theorem c8_counterexample :
    (runGeo emptyGeoState c8BadOps).ipInfoCache.length = 101 := by decide

/-- Claim C8 (amended): provided no lookup uses the empty-string
address — the truthiness guard of line 55 skips eviction when the
oldest key is the empty string, see the counterexample — every lookup
sequence from the empty state keeps at most MAX_CACHE_SIZE entries;
and a miss at capacity under the cache invariant evicts exactly the
scan's minimal-access-time entry before appending the new address,
leaving the cache at capacity. -/
theorem c8_bound_and_lru_eviction :
    (∀ ops : List GeoOp, (∀ o ∈ ops, o.ip ≠ "") →
        (runGeo emptyGeoState ops).ipInfoCache.length ≤ MAX_CACHE_SIZE) ∧
    (∀ (st : GeoState) (ip : String) (now : Nat) (res : LookupRes),
        geoInv st → st.ipInfoCache.length = MAX_CACHE_SIZE →
        mapHas st.ipInfoCache ip = false →
        ∃ k t, scanOldest st.ipAccessTimes = some (k, t) ∧
          (∀ q ∈ st.ipAccessTimes, t ≤ q.2) ∧
          (k, t) ∈ st.ipAccessTimes ∧
          mapKeys (getIPInfo st ip now res).state.ipInfoCache
            = (mapKeys st.ipInfoCache).filter (fun x => x != k) ++ [ip] ∧
          (getIPInfo st ip now res).state.ipInfoCache.length = MAX_CACHE_SIZE) := by
  constructor
  · intro ops hops
    exact (runGeo_inv ops emptyGeoState geoInv_empty hops).2.2.2
  · intro st ip now res hinv hlen hmiss
    obtain ⟨hkeys, hnd, hne, _⟩ := hinv
    obtain ⟨k, t, hp, hmem, hmin, hev, hkm⟩ := evictIfFull_full st hkeys hnd hne hlen
    obtain ⟨hcache, _⟩ := getIPInfo_miss_state st ip now res hmiss
    have hc1 : mapHas (evictIfFull st).ipInfoCache ip = false :=
      evictIfFull_hasFalse st ip hmiss
    have hkc : mapKeys (getIPInfo st ip now res).state.ipInfoCache
        = (mapKeys st.ipInfoCache).filter (fun x => x != k) ++ [ip] := by
      rw [hcache, mapKeys_mapSet, if_neg (by rw [hc1]; exact Bool.noConfusion), hev]
      show mapKeys (mapDelete st.ipInfoCache k) ++ [ip] = _
      rw [mapKeys_mapDelete]
    refine ⟨k, t, hp, hmin, hmem, hkc, ?_⟩
    have h1 : ((mapKeys st.ipInfoCache).filter (fun y => y != k)).length + 1
        = (mapKeys st.ipInfoCache).length := filter_ne_length _ k hnd hkm
    rw [mapKeys_length, hlen] at h1
    have h2 : ((getIPInfo st ip now res).state.ipInfoCache).length
        = ((mapKeys st.ipInfoCache).filter (fun y => y != k)).length + 1 := by
      rw [← mapKeys_length, hkc, List.length_append]
      rfl
    omega

end SimpleFileHosting
